import Mathlib

/-!
Shallow embedding of the `stat` package of pidah/urlstat (request.go and
response.go) and proofs about its report emission, timing computation,
redirect state machine, request cooking and TLS server-name selection.

Wall-clock instants are modelled as `Int` nanoseconds (Go `time.Time`
differences are `time.Duration`, an `int64` count of nanoseconds).  The
network side of one request attempt (which httptrace hooks fired, at what
instants, and what response came back) is supplied as oracle data; the
`visit` function below reproduces the control flow of `Request.visit`
over such an oracle, one entry per hop attempt.
-/

namespace Urlstat

/-- Go duration in whole milliseconds exactly as
`int(d/time.Millisecond)` computes it: `int64` division truncates toward
zero, which is `Int.tdiv` with divisor `10^6` nanoseconds. -/
def msVal (d : Int) : Int := d.tdiv 1000000

/-- Rendering `fmt.Sprintf("%dms", int(d/time.Millisecond))` of a duration. -/
def msRender (d : Int) : String := toString (msVal d) ++ "ms"

/-- ASCII lower-casing of a string (Go case-insensitive comparisons are
ASCII for the inputs involved here). -/
def strLower (s : String) : String := ⟨s.data.map Char.toLower⟩

/-- Lexicographic strict order on character sequences, Go's `<` on
strings. -/
def listLt : List Char → List Char → Bool
  | [], [] => false
  | [], _ :: _ => true
  | _ :: _, [] => false
  | a :: as, b :: bs => if a = b then listLt as bs else decide (a.toNat < b.toNat)

/-- Modelled from the spec: the sort order of the `Headers` type used by
`sort.Sort(Headers(names))` — the `Headers` Less method is not under
src/; the spec fixes it as case-insensitive lexical comparison with ties
broken by original byte order. -/
def headerLess (a b : String) : Bool :=
  let la := a.data.map Char.toLower
  let lb := b.data.map Char.toLower
  if la = lb then listLt a.data b.data else listLt la lb

/-- Insert a name into a list sorted by `headerLess`. -/
def insertSorted (x : String) : List String → List String
  | [] => [x]
  | y :: ys => if headerLess x y then x :: y :: ys else y :: insertSorted x ys

/-- Sorting of header names, any correct sort under the total order
`headerLess` (Go's `sort.Sort` output is unique here because the order is
total on distinct strings). -/
def sortHeaders (l : List String) : List String := l.foldr insertSorted []

/-- The parsed URL: scheme plus the `Host` component (`host` or
`host:port`), the only parts `Request.visit` consults. -/
structure URL where
  Scheme : String
  Host : String
deriving DecidableEq, Repr

/-- The `stat.Request` struct (fields that the traced code reads). -/
structure Request where
  URL : URL
  HTTPHeaders : List String
  HTTPMethod : String
  PostBody : String
  FollowRedirects : Bool
  OnlyHeader : Bool
  Insecure : Bool
  MaxRedirects : Nat
deriving DecidableEq, Repr

/-- The `stat.Response` accumulator: append-only log plus the shared
redirect counter. -/
structure Response where
  Log : List String
  redirectsFollowed : Nat
deriving DecidableEq, Repr

/-- `Response.report` appends one formatted entry to the log. -/
def Response.report (w : Response) (entry : String) : Response :=
  { w with Log := w.Log ++ [entry] }

/-- Appending a whole sequence of report entries, one `report` call each. -/
def Response.reportAll (w : Response) (entries : List String) : Response :=
  entries.foldl Response.report w

/-- Modelled from the spec: `stat.Trace` (not under src/) starts from the
Go zero-value `Response`, whose log is empty and whose counter is 0. -/
def newResponse : Response := { Log := [], redirectsFollowed := 0 }

/-- The instants captured by the httptrace hooks during one attempt.
`dnsStart`/`dnsDone` are `none` when the corresponding hook never fired
(Go zero `time.Time`, tested with `IsZero`).  `connectStart` is the
instant of the `ConnectStart` hook, which backfills `t1` when DNS was
skipped. -/
structure Marks where
  dnsStart : Option Int
  dnsDone : Option Int
  connectStart : Int
  connectDone : Int
  gotConn : Int
  firstByte : Int
  bodyRead : Int
deriving DecidableEq, Repr

/-- Effective `t1` after the `ConnectStart` backfill: `DNSDone` set it,
otherwise `ConnectStart` found it zero and set it. -/
def effT1 (m : Marks) : Int := m.dnsDone.getD m.connectStart

/-- Effective `t0` after the post-body backfill `if t0.IsZero() { t0 = t1 }`. -/
def effT0 (m : Marks) : Int := m.dnsStart.getD (effT1 m)

/-- Result of `resp.Location()`: a resolved URL, `http.ErrNoLocation`, or
another (parse) error. -/
inductive LocationField where
  | absent : LocationField
  | invalid : String → LocationField
  | ok : URL → LocationField
deriving DecidableEq, Repr

/-- The pieces of an `*http.Response` that `Request.visit` reads, plus
the `readResponseBody` summary (that helper is not under src/; modelled
from the spec as an arbitrary one-line description or empty string,
supplied by the oracle). -/
structure Resp where
  protoMajor : Nat
  protoMinor : Nat
  status : String
  statusCode : Nat
  headers : List (String × List String)
  location : LocationField
  bodyMsg : String
deriving DecidableEq, Repr

/-- Modelled from the spec: the `isRedirect` status classification helper
is not under src/; the spec describes it as "3xx with a semantically
redirect-indicating code", i.e. a 300-class status code. -/
def isRedirect (resp : Resp) : Bool :=
  299 < resp.statusCode && resp.statusCode < 400

/-- What the network did during one hop attempt.  `cookFail`,
`http2Fail`, `connectFail` and `doFail` are the fatal events of one
attempt (`makePanic` sites before a response exists); `doFail` records
whether `ConnectDone` had already fired successfully (and hence already
reported a connected line).  `success` carries the captured instants and
the response. -/
inductive HopOutcome where
  | cookFail : String → HopOutcome
  | http2Fail : String → HopOutcome
  | connectFail : String → String → HopOutcome
  | doFail : Option String → String → HopOutcome
  | success : String → Marks → Resp → HopOutcome
deriving DecidableEq, Repr

/-- Outcome of a whole trace: normal return, `makePanic` abort, or oracle
exhaustion (model artifact: the script provided fewer hops than the trace
wanted to perform).  Each carries the final `Response` state and the
number of hop attempts consumed. -/
inductive VisitResult where
  | ok : Response → Nat → VisitResult
  | fatal : String → Response → Nat → VisitResult
  | stuck : Response → Nat → VisitResult
deriving DecidableEq, Repr

/-- Adds the current hop to a recursive call's attempt count. -/
def VisitResult.bump : VisitResult → VisitResult
  | .ok w n => .ok w (n + 1)
  | .fatal msg w n => .fatal msg w (n + 1)
  | .stuck w n => .stuck w (n + 1)

/-- The `Response` state carried by a result. -/
def VisitResult.state : VisitResult → Response
  | .ok w _ => w
  | .fatal _ w _ => w
  | .stuck w _ => w

/-- The number of hop attempts a result consumed. -/
def VisitResult.hops : VisitResult → Nat
  | .ok _ n => n
  | .fatal _ _ n => n
  | .stuck _ n => n

/-- The `ConnectDone` hook's report line `"Connected to %s\n"`. -/
def connectedLine (addr : String) : String := "Connected to " ++ addr ++ "\n"

/-- The status report line `"HTTP/%d.%d %s"`. -/
def statusLine (resp : Resp) : String :=
  "HTTP/" ++ toString resp.protoMajor ++ "." ++ toString resp.protoMinor ++ " " ++ resp.status

/-- Lookup of `resp.Header[k]` in the header association list. -/
def valuesFor : List (String × List String) → String → List String
  | [], _ => []
  | (k, vs) :: rest, key => if k = key then vs else valuesFor rest key

/-- The sorted header block: names collected from the header map, sorted
with the `Headers` order, each rendered `"%s: %s"` with comma-joined
values. -/
def headerLines (resp : Resp) : List String :=
  (sortHeaders (resp.headers.map Prod.fst)).map
    (fun k => k ++ ": " ++ String.intercalate "," (valuesFor resp.headers k))

/-- The five phase-duration report lines, computed from the effective
(post-backfill) marks exactly as `Request.visit` does. -/
def phaseLines (m : Marks) : List String :=
  ["DNS lookup: " ++ msRender (effT1 m - effT0 m),
   "TCP connection: " ++ msRender (m.connectDone - effT1 m),
   "TLS handshake: " ++ msRender (m.gotConn - m.connectDone),
   "Server processing: " ++ msRender (m.firstByte - m.gotConn),
   "Content transfer: " ++ msRender (m.bodyRead - m.firstByte)]

/-- The final report entry `"\nTotal: %s"` of a hop. -/
def totalLine (m : Marks) : String :=
  "\nTotal: " ++ msRender (m.bodyRead - effT0 m)

/-- All report entries appended for one completed (non-fatal) hop, in
order: the connected line from the `ConnectDone` hook, the status line,
the sorted header block, the body summary when non-empty, the five phase
lines and the total entry. -/
def hopEntries (addr : String) (m : Marks) (resp : Resp) : List String :=
  connectedLine addr :: statusLine resp :: headerLines resp
    ++ (if resp.bodyMsg = "" then [] else [resp.bodyMsg])
    ++ phaseLines m ++ [totalLine m]

/-- The `Response` after a completed hop's report entries (counter
untouched). -/
def hopState (w : Response) (addr : String) (m : Marks) (resp : Resp) : Response :=
  { Log := w.Log ++ hopEntries addr m resp, redirectsFollowed := w.redirectsFollowed }

/-- The `Response` at the budget-exceeded panic: the hop's entries are
appended and the counter has already been incremented. -/
def overState (w : Response) (addr : String) (m : Marks) (resp : Resp) : Response :=
  { Log := w.Log ++ hopEntries addr m resp, redirectsFollowed := w.redirectsFollowed + 1 }

/-- The `Response` handed to the recursive call when a redirect is
followed: the hop's entries plus the separator entry are appended and
the counter is incremented. -/
def followState (w : Response) (addr : String) (m : Marks) (resp : Resp) : Response :=
  { Log := w.Log ++ hopEntries addr m resp ++ ["\n"],
    redirectsFollowed := w.redirectsFollowed + 1 }

/-- Message of the `makePanic` in `Request.cook`. -/
def cookFailMsg (msg : String) : String := "Unable to create request: " ++ msg

/-- Message of the `makePanic` after `http2.ConfigureTransport` fails. -/
def http2FailMsg (msg : String) : String :=
  "Failed to prepare transport for HTTP/2: " ++ msg

/-- Message of the `makePanic` in the `ConnectDone` hook. -/
def connectFailMsg (addr msg : String) : String :=
  "Unable to connect to host " ++ addr ++ ": " ++ msg

/-- Message of the `makePanic` after `client.Do` fails. -/
def doFailMsg (msg : String) : String := "Failed to read response: " ++ msg

/-- Message of the `makePanic` after `resp.Location()` fails with a real
error. -/
def locFailMsg (msg : String) : String := "Unable to follow redirect: " ++ msg

/-- Message of the `makePanic` when the redirect budget is exceeded:
`"Maximum number of redirects (%d) followed"`. -/
def budgetMsg (maxRedirects : Nat) : String :=
  "Maximum number of redirects (" ++ toString maxRedirects ++ ") followed"

/-- The control flow of `Request.visit`, one oracle entry per hop
attempt.  On a completed hop it appends the hop's report entries, then
runs the redirect branch: give up silently on `ErrNoLocation`, panic on a
real location error, otherwise increment the shared counter, panic when
it exceeds `MaxRedirects`, and otherwise append the `"\n"` separator and
recurse on the remaining oracle with the resolved URL substituted into a
copy of the request (`visit` has a value receiver). -/
def visit (r : Request) (w : Response) : List HopOutcome → VisitResult
  | [] => .stuck w 0
  | .cookFail msg :: _ => .fatal (cookFailMsg msg) w 1
  | .http2Fail msg :: _ => .fatal (http2FailMsg msg) w 1
  | .connectFail addr msg :: _ => .fatal (connectFailMsg addr msg) w 1
  | .doFail connected msg :: _ =>
      let w1 := match connected with
        | some addr => w.report (connectedLine addr)
        | none => w
      .fatal (doFailMsg msg) w1 1
  | .success addr m resp :: rest =>
      let w1 := w.reportAll (hopEntries addr m resp)
      if r.FollowRedirects && isRedirect resp then
        match resp.location with
        | .absent => .ok w1 1
        | .invalid emsg => .fatal (locFailMsg emsg) w1 1
        | .ok u =>
            let w2 : Response := { w1 with redirectsFollowed := w1.redirectsFollowed + 1 }
            if w2.redirectsFollowed > r.MaxRedirects then
              .fatal (budgetMsg r.MaxRedirects) w2 1
            else
              (visit { r with URL := u } (w2.report "\n") rest).bump
      else .ok w1 1

/-- Modelled from the spec: `headerKeyValue` (not under src/) splits a raw
header string at the first separator character into key and value. -/
def headerKeyValue (h : String) : String × String :=
  let k := h.data.takeWhile (fun c => c != ':')
  match h.data.dropWhile (fun c => c != ':') with
  | [] => (⟨k⟩, "")
  | _ :: v => (⟨k⟩, ⟨v⟩)

/-- Token bytes allowed in a MIME header key (Go `validHeaderFieldByte`):
ASCII alphanumerics and the thirteen specials (apostrophe, code 39, and
backtick, code 96, written via their code points). -/
def isTokenChar (c : Char) : Bool :=
  c.isAlphanum || "!#$%&*+-.^_|~".data.contains c || c.toNat == 39 || c.toNat == 96

/-- The ASCII case-folding pass of Go `CanonicalMIMEHeaderKey`: uppercase
at the start and after each hyphen, lowercase elsewhere. -/
def canonChars : Bool → List Char → List Char
  | _, [] => []
  | up, c :: cs => (if up then c.toUpper else c.toLower) :: canonChars (c == '-') cs

/-- Go `textproto.CanonicalMIMEHeaderKey`, applied by `Header.Add`: keys
containing a non-token byte are returned unchanged, all others are
canonicalized. -/
def canonicalMIMEHeaderKey (s : String) : String :=
  if s.data.all isTokenChar then ⟨canonChars true s.data⟩ else s

/-- Go `http.Header.Add`: append the value to the canonical key's value
list, keeping the entry's position, or create the entry. -/
def headerAdd : List (String × List String) → String → String → List (String × List String)
  | [], k, v => [(canonicalMIMEHeaderKey k, [v])]
  | (k0, vs) :: rest, k, v =>
      if k0 = canonicalMIMEHeaderKey k then (k0, vs ++ [v]) :: rest
      else (k0, vs) :: headerAdd rest k v

/-- The wire request produced by `Request.cook`: method, the effective
`Host` (seeded by `http.NewRequest` from the URL's host component, then
possibly overridden), the header map, and the body reader contents
(`strings.NewReader` always yields a present reader, so the body is
`some` even for the empty string). -/
structure WireRequest where
  method : String
  host : String
  header : List (String × List String)
  body : Option String
deriving DecidableEq, Repr

/-- One loop iteration of `Request.cook`: a header whose key
case-insensitively equals "host" becomes the connection's Host override,
every other header is added to the header map. -/
def cookStep (req : WireRequest) (h : String) : WireRequest :=
  let kv := headerKeyValue h
  if strLower kv.1 = "host" then { req with host := kv.2 }
  else { req with header := headerAdd req.header kv.1 kv.2 }

/-- `Request.cook`: build the wire request from the method, URL and body,
then fold the supplied raw headers through `cookStep`. -/
def cook (r : Request) : WireRequest :=
  r.HTTPHeaders.foldl cookStep
    { method := r.HTTPMethod, host := r.URL.Host, header := [], body := some r.PostBody }

/-- Splits a character list at its last colon, the first step of Go
`net.SplitHostPort`; `none` when there is no colon (missing-port error). -/
def splitAtLastColon (l : List Char) : Option (List Char × List Char) :=
  match (l.reverse.dropWhile (fun c => c != ':')) with
  | [] => none
  | _ :: hostRev => some (hostRev.reverse, (l.reverse.takeWhile (fun c => c != ':')).reverse)

/-- Go `net.SplitHostPort` on character lists: split at the last colon;
a leading bracket selects the bracketed (IPv6) form whose closing bracket
must sit right before that colon; an unbracketed host may contain no
further colon; stray brackets anywhere are errors (`none`). -/
def splitHostPortL (l : List Char) : Option (List Char × List Char) :=
  match splitAtLastColon l with
  | none => none
  | some (h, p) =>
      if p.contains '[' || p.contains ']' then none
      else
        match h with
        | '[' :: rest =>
            if rest.getLast? = some ']' && !rest.dropLast.contains ']'
                && !rest.dropLast.contains '[' then
              some (rest.dropLast, p)
            else none
        | _ =>
            if h.contains ':' || h.contains '[' || h.contains ']' then none
            else some (h, p)

/-- Go `net.SplitHostPort` restricted to the host result, on strings. -/
def splitHostPort (s : String) : Option (String × String) :=
  (splitHostPortL s.data).map (fun hp => (⟨hp.1⟩, ⟨hp.2⟩))

/-- The TLS ServerName computation of `Request.visit`: strip the port via
`net.SplitHostPort`, and on any split error use the Host value verbatim. -/
def sniFromHost (host : String) : String :=
  match splitHostPort host with
  | some hp => hp.1
  | none => host

/-- The ServerName placed into the TLS configuration for an https
request: derived from the cooked wire request's Host. -/
def tlsServerName (r : Request) : String := sniFromHost (cook r).host

/-- The characters of `Response.String()`: the log entries joined with a
newline between consecutive entries. -/
def renderNl : List String → List Char
  | [] => []
  | [s] => s.data
  | s :: rest => s.data ++ '\n' :: renderNl rest

/-- `Response.String()`: the newline-joined log. -/
def Response.render (w : Response) : String := ⟨renderNl w.Log⟩

/-- Splitting a character sequence at newline characters into the
rendered text lines. -/
def splitOnNl : List Char → List (List Char)
  | [] => [[]]
  | c :: cs =>
      let r := splitOnNl cs
      if c = '\n' then [] :: r else (c :: r.headI) :: r.tail

/-- The individual text lines of the rendered trace (report entries may
embed newlines, so rendered lines and log entries differ). -/
def renderedLines (w : Response) : List String :=
  (splitOnNl (renderNl w.Log)).map (fun l => ⟨l⟩)

/-- A hop whose response is a redirect carrying a resolvable Location:
the shape every answer of an always-redirecting server has. -/
def isRedirectHop : HopOutcome → Bool
  | .success _ _ resp =>
      isRedirect resp && (match resp.location with | .ok _ => true | _ => false)
  | _ => false

/-- The per-hop report line order asserted by the specification (status
line, sorted header block, body summary when non-empty, a blank
separator line, the five phase lines, a blank line and the total line,
and nothing else), as the list of rendered text lines. -/
def specClaimedHopLines (m : Marks) (resp : Resp) : List String :=
  statusLine resp :: headerLines resp
    ++ (if resp.bodyMsg = "" then [] else [resp.bodyMsg])
    ++ [""] ++ phaseLines m
    ++ ["", "Total: " ++ msRender (m.bodyRead - effT0 m)]

/-- The specification's description of the effective Host override: the
last supplied header whose key case-insensitively equals "host". -/
def specHostOverride (headers : List String) : Option String :=
  (headers.filterMap (fun h =>
    let kv := headerKeyValue h
    if strLower kv.1 = "host" then some kv.2 else none)).getLast?

/-- The specification's description of the header map contents: for a
given canonical key, the values of the non-host headers carrying that
key, in the order supplied. -/
def specHeaderValues (headers : List String) (key : String) : List String :=
  headers.filterMap (fun h =>
    let kv := headerKeyValue h
    if strLower kv.1 ≠ "host" ∧ canonicalMIMEHeaderKey kv.1 = key then some kv.2 else none)

/-- Concrete captured instants used by witnesses: DNS 0ns..5ms, connect
done at 10ms, connection obtained at 12ms, first byte at 20ms, body read
at 30ms. -/
def fixMarks : Marks :=
  { dnsStart := some 0, dnsDone := some 5000000, connectStart := 5000000,
    connectDone := 10000000, gotConn := 12000000, firstByte := 20000000,
    bodyRead := 30000000 }

/-- Concrete non-redirect response used by witnesses. -/
def fixResp200 : Resp :=
  { protoMajor := 1, protoMinor := 1, status := "200 OK", statusCode := 200,
    headers := [("Content-Type", ["text/html"]), ("X-Foo", ["a", "b"])],
    location := .absent, bodyMsg := "Body discarded" }

/-- Concrete redirect response with a resolvable Location. -/
def fixResp301 : Resp :=
  { protoMajor := 1, protoMinor := 1, status := "301 Moved Permanently",
    statusCode := 301, headers := [("Location", ["http://x/"])],
    location := .ok { Scheme := "http", Host := "x" }, bodyMsg := "" }

/-- Concrete redirect response with no Location header. -/
def fixResp301NoLoc : Resp :=
  { fixResp301 with headers := [], location := .absent }

/-- Concrete request with a configurable redirect budget. -/
def fixReq (maxRedirects : Nat) : Request :=
  { URL := { Scheme := "http", Host := "x" }, HTTPHeaders := [],
    HTTPMethod := "GET", PostBody := "", FollowRedirects := true,
    OnlyHeader := false, Insecure := false, MaxRedirects := maxRedirects }

/-- Concrete captured instants of a hop whose target was a literal IP:
neither DNS hook fired. -/
def fixMarksNoDns : Marks :=
  { dnsStart := none, dnsDone := none, connectStart := 2000000,
    connectDone := 10000000, gotConn := 12000000, firstByte := 20000000,
    bodyRead := 30000000 }

/-- Concrete https request with no supplied headers. -/
def fixHttpsReq (host : String) : Request :=
  { URL := { Scheme := "https", Host := host }, HTTPHeaders := [],
    HTTPMethod := "GET", PostBody := "", FollowRedirects := true,
    OnlyHeader := false, Insecure := false, MaxRedirects := 2 }

/-- Concrete completed non-redirect hop. -/
def fixHop200 : HopOutcome := .success "93.184.216.34:80" fixMarks fixResp200

/-- Concrete completed redirecting hop. -/
def fixHop301 : HopOutcome := .success "1.2.3.4:80" fixMarks fixResp301

/-- Reporting a sequence of entries appends them to the log and leaves
the redirect counter alone. -/
theorem reportAll_eq (es : List String) : ∀ w : Response,
    w.reportAll es = { Log := w.Log ++ es, redirectsFollowed := w.redirectsFollowed } := by
  induction es with
  | nil => intro w; simp [Response.reportAll]
  | cons e es ih =>
      intro w
      have h : w.reportAll (e :: es) = (w.report e).reportAll es := rfl
      rw [h, ih (w.report e)]
      simp [Response.report]

/-- A completed hop that is not a followed redirect (redirects disabled
or a non-redirect status) ends the trace normally after appending the
hop's report entries. -/
theorem visit_step_terminal (r : Request) (w : Response) (addr : String) (m : Marks)
    (resp : Resp) (rest : List HopOutcome)
    (h : (r.FollowRedirects && isRedirect resp) = false) :
    visit r w (.success addr m resp :: rest) = .ok (hopState w addr m resp) 1 := by
  simp [visit, h, reportAll_eq, hopState]

/-- A followed redirect whose response carries no Location header ends
the trace normally (silent stop) after the hop's report entries. -/
theorem visit_step_noLocation (r : Request) (w : Response) (addr : String) (m : Marks)
    (resp : Resp) (rest : List HopOutcome)
    (hf : r.FollowRedirects = true) (hr : isRedirect resp = true)
    (hl : resp.location = .absent) :
    visit r w (.success addr m resp :: rest) = .ok (hopState w addr m resp) 1 := by
  simp [visit, hf, hr, hl, reportAll_eq, hopState]

/-- A followed redirect whose Location fails to resolve is fatal after
the hop's report entries. -/
theorem visit_step_locErr (r : Request) (w : Response) (addr : String) (m : Marks)
    (resp : Resp) (rest : List HopOutcome) (emsg : String)
    (hf : r.FollowRedirects = true) (hr : isRedirect resp = true)
    (hl : resp.location = .invalid emsg) :
    visit r w (.success addr m resp :: rest) =
      .fatal (locFailMsg emsg) (hopState w addr m resp) 1 := by
  simp [visit, hf, hr, hl, reportAll_eq, hopState]

/-- A followed redirect that would exceed the budget increments the
counter and then fails fatally naming the limit. -/
theorem visit_step_over (r : Request) (w : Response) (addr : String) (m : Marks)
    (resp : Resp) (rest : List HopOutcome) (u : URL)
    (hf : r.FollowRedirects = true) (hr : isRedirect resp = true)
    (hl : resp.location = .ok u) (hover : r.MaxRedirects < w.redirectsFollowed + 1) :
    visit r w (.success addr m resp :: rest) =
      .fatal (budgetMsg r.MaxRedirects) (overState w addr m resp) 1 := by
  simp [visit, hf, hr, hl, reportAll_eq, hover, overState]

/-- A followed redirect within the budget increments the counter,
appends the separator entry, and recurses with the resolved URL. -/
theorem visit_step_follow (r : Request) (w : Response) (addr : String) (m : Marks)
    (resp : Resp) (rest : List HopOutcome) (u : URL)
    (hf : r.FollowRedirects = true) (hr : isRedirect resp = true)
    (hl : resp.location = .ok u) (hin : w.redirectsFollowed + 1 ≤ r.MaxRedirects) :
    visit r w (.success addr m resp :: rest) =
      (visit { r with URL := u } (followState w addr m resp) rest).bump := by
  have hno : ¬ (w.redirectsFollowed + 1 > r.MaxRedirects) := by omega
  simp [visit, hf, hr, hl, reportAll_eq, hno, Response.report, followState]

/-- An always-redirecting server's answer decomposes into a completed
hop whose response is a redirect with a resolvable Location. -/
theorem redirect_hop_shape {h : HopOutcome} (hh : isRedirectHop h = true) :
    ∃ addr m resp u, h = .success addr m resp
      ∧ isRedirect resp = true ∧ resp.location = .ok u := by
  cases h with
  | cookFail msg => simp [isRedirectHop] at hh
  | http2Fail msg => simp [isRedirectHop] at hh
  | connectFail addr msg => simp [isRedirectHop] at hh
  | doFail oc msg => simp [isRedirectHop] at hh
  | success addr m resp =>
      cases hl : resp.location with
      | absent => simp [isRedirectHop, hl] at hh
      | invalid e => simp [isRedirectHop, hl] at hh
      | ok u =>
          simp only [isRedirectHop, hl, Bool.and_eq_true] at hh
          exact ⟨addr, m, resp, u, rfl, hh.1, hl⟩

/-- A string whose first character is not an uppercase M is never the
budget panic message. -/
theorem ne_budgetMsg_of_head {s : String} {k : Nat} (c : Char)
    (hc : s.data.head? = some c) (hne : c ≠ 'M') : s ≠ budgetMsg k := by
  intro h
  apply hne
  have hb : (budgetMsg k).data.head? = some 'M' := rfl
  rw [h, hb] at hc
  exact (Option.some.inj hc).symm

/-- Claim C1 (counterexample): on a concrete completed hop the rendered
trace lines are not in the claimed order (status line first, blank
separator between body summary and phase lines, nothing else): the
`ConnectDone` hook reported a connected line before the status line, and
no separator is emitted between the body summary and the phase lines. -/
theorem c1_claimed_order_refuted :
    renderedLines (visit (fixReq 2) newResponse [fixHop200]).state
        ≠ specClaimedHopLines fixMarks fixResp200
    ∧ renderedLines (visit (fixReq 2) newResponse [fixHop200]).state =
        ["Connected to 93.184.216.34:80", "", "HTTP/1.1 200 OK",
         "Content-Type: text/html", "X-Foo: a,b", "Body discarded",
         "DNS lookup: 5ms", "TCP connection: 5ms", "TLS handshake: 2ms",
         "Server processing: 8ms", "Content transfer: 10ms", "", "Total: 30ms"] := by
  constructor
  · decide
  · rfl

/-- Claim C1 (amended): for every hop that completes without a fatal
error, the report entries appended for the hop are exactly, in order:
one connected line ending in a newline (so it renders as the connected
line plus a blank line), the status line, the response header lines
sorted case-insensitively, the body-summary line if non-empty, the five
phase-duration lines immediately (no blank separator entry), and one
final entry holding a newline plus the total-duration line; a hop that
ends the chain stops there, and a hop followed as a redirect within the
budget appends one further "\n" separator entry before the next hop. -/
theorem c1_report_block (r : Request) (w : Response) (addr : String) (m : Marks)
    (resp : Resp) (rest : List HopOutcome) :
    ((r.FollowRedirects && isRedirect resp) = false →
      visit r w (.success addr m resp :: rest) =
        .ok { Log := w.Log ++ (connectedLine addr :: statusLine resp :: headerLines resp
                ++ (if resp.bodyMsg = "" then [] else [resp.bodyMsg])
                ++ phaseLines m ++ [totalLine m]),
              redirectsFollowed := w.redirectsFollowed } 1)
    ∧ (∀ u : URL, r.FollowRedirects = true → isRedirect resp = true →
        resp.location = .ok u → w.redirectsFollowed + 1 ≤ r.MaxRedirects →
        visit r w (.success addr m resp :: rest) =
          (visit { r with URL := u }
            { Log := w.Log ++ (connectedLine addr :: statusLine resp :: headerLines resp
                ++ (if resp.bodyMsg = "" then [] else [resp.bodyMsg])
                ++ phaseLines m ++ [totalLine m]) ++ ["\n"],
              redirectsFollowed := w.redirectsFollowed + 1 } rest).bump) := by
  constructor
  · intro h
    exact visit_step_terminal r w addr m resp rest h
  · intro u hf hr hl hin
    exact visit_step_follow r w addr m resp rest u hf hr hl hin

/-- Claim C1 (witness): the amended block equation evaluated on a
concrete non-redirect hop. -/
theorem c1_report_block_witness :
    visit (fixReq 2) newResponse [fixHop200] =
      .ok { Log := newResponse.Log ++ (connectedLine "93.184.216.34:80"
              :: statusLine fixResp200 :: headerLines fixResp200
              ++ (if fixResp200.bodyMsg = "" then [] else [fixResp200.bodyMsg])
              ++ phaseLines fixMarks ++ [totalLine fixMarks]),
            redirectsFollowed := newResponse.redirectsFollowed } 1 :=
  (c1_report_block (fixReq 2) newResponse "93.184.216.34:80" fixMarks fixResp200 []).1
    (by decide)

/-- Claim C3: a hop whose response has a redirect status but no Location
header, with redirects enabled, terminates the trace normally: the log
ends with that hop's full report block (`hopEntries`, which closes with
the phase and total entries), the redirect counter is unchanged, and no
further hop is attempted (exactly one oracle entry is consumed, whatever
the remaining script holds). -/
theorem c3_no_location_silent_stop (r : Request) (w : Response) (addr : String)
    (m : Marks) (resp : Resp) (rest : List HopOutcome)
    (hf : r.FollowRedirects = true) (hr : isRedirect resp = true)
    (hl : resp.location = .absent) :
    visit r w (.success addr m resp :: rest) =
      .ok { Log := w.Log ++ hopEntries addr m resp,
            redirectsFollowed := w.redirectsFollowed } 1 :=
  visit_step_noLocation r w addr m resp rest hf hr hl

/-- Claim C3 (witness): the silent stop evaluated on a concrete
redirect-without-Location hop, with one further scripted hop that is
never attempted. -/
theorem c3_no_location_witness :
    visit (fixReq 2) newResponse
        [.success "1.2.3.4:80" fixMarks fixResp301NoLoc, fixHop301] =
      .ok { Log := newResponse.Log ++ hopEntries "1.2.3.4:80" fixMarks fixResp301NoLoc,
            redirectsFollowed := newResponse.redirectsFollowed } 1 :=
  c3_no_location_silent_stop (fixReq 2) newResponse "1.2.3.4:80" fixMarks
    fixResp301NoLoc [fixHop301] rfl (by decide) rfl

/-- Against an always-redirecting script, a trace whose remaining budget
is `k` (counter plus `k` equals the limit) performs `k + 1` further hop
attempts and then fails fatally naming the configured limit. -/
theorem visit_budget_fatal : ∀ (k : Nat) (oracle : List HopOutcome) (r : Request)
    (w : Response), r.FollowRedirects = true → oracle.all isRedirectHop = true →
    w.redirectsFollowed + k = r.MaxRedirects → k + 1 ≤ oracle.length →
    ∃ w2, visit r w oracle = .fatal (budgetMsg r.MaxRedirects) w2 (k + 1) := by
  intro k
  induction k with
  | zero =>
      intro oracle r w hf ho hk hlen
      cases oracle with
      | nil => simp at hlen
      | cons a rest =>
          simp only [List.all_cons, Bool.and_eq_true] at ho
          obtain ⟨a1, m1, p1, u1, rfl, hr1, hl1⟩ := redirect_hop_shape ho.1
          exact ⟨_, visit_step_over r w a1 m1 p1 rest u1 hf hr1 hl1 (by omega)⟩
  | succ k ih =>
      intro oracle r w hf ho hk hlen
      cases oracle with
      | nil => simp at hlen
      | cons a rest =>
          simp only [List.all_cons, Bool.and_eq_true] at ho
          obtain ⟨a1, m1, p1, u1, rfl, hr1, hl1⟩ := redirect_hop_shape ho.1
          rw [visit_step_follow r w a1 m1 p1 rest u1 hf hr1 hl1 (by omega)]
          have hf2 : ({ r with URL := u1 } : Request).FollowRedirects = true := hf
          have hk2 : (followState w a1 m1 p1).redirectsFollowed + k
              = ({ r with URL := u1 } : Request).MaxRedirects := by
            show w.redirectsFollowed + 1 + k = r.MaxRedirects
            omega
          obtain ⟨w2, hw2⟩ := ih rest { r with URL := u1 } _ hf2 ho.2 hk2
            (by simp only [List.length_cons] at hlen; omega)
          rw [hw2]
          exact ⟨w2, rfl⟩

/-- Claim C2: against a server whose every answer is a redirect with a
resolvable Location, a trace with redirects enabled and budget 2
performs the initial hop plus exactly 2 additional hops (3 attempts
consumed) and then fails fatally with the message naming the limit 2;
with budget 0 the very first response triggers the fatal path after the
single initial attempt, before any additional hop. -/
theorem c2_redirect_budget (oracle : List HopOutcome) (r2 r0 : Request)
    (ho : oracle.all isRedirectHop = true) (hlen : 3 ≤ oracle.length)
    (h2f : r2.FollowRedirects = true) (h2m : r2.MaxRedirects = 2)
    (h0f : r0.FollowRedirects = true) (h0m : r0.MaxRedirects = 0) :
    budgetMsg 2 = "Maximum number of redirects (2) followed"
    ∧ budgetMsg 0 = "Maximum number of redirects (0) followed"
    ∧ (∃ w, visit r2 newResponse oracle = .fatal (budgetMsg 2) w 3)
    ∧ (∃ w, visit r0 newResponse oracle = .fatal (budgetMsg 0) w 1) := by
  refine ⟨rfl, rfl, ?_, ?_⟩
  · obtain ⟨w2, hw⟩ := visit_budget_fatal 2 oracle r2 newResponse h2f ho
      (by rw [h2m]; decide) hlen
    rw [h2m] at hw
    exact ⟨w2, hw⟩
  · obtain ⟨w2, hw⟩ := visit_budget_fatal 0 oracle r0 newResponse h0f ho
      (by rw [h0m]; decide) (by omega)
    rw [h0m] at hw
    exact ⟨w2, hw⟩

/-- Inversion of `bump` at a normal result. -/
theorem bump_ok {v : VisitResult} {w2 : Response} {n : Nat}
    (h : v.bump = .ok w2 n) : ∃ k, v = .ok w2 k ∧ n = k + 1 := by
  cases v with
  | ok w j =>
      simp only [VisitResult.bump, VisitResult.ok.injEq] at h
      exact ⟨j, by rw [h.1], by omega⟩
  | fatal msg w j => simp [VisitResult.bump] at h
  | stuck w j => simp [VisitResult.bump] at h

/-- Inversion of `bump` at a fatal result. -/
theorem bump_fatal {v : VisitResult} {msg : String} {w2 : Response} {n : Nat}
    (h : v.bump = .fatal msg w2 n) : ∃ k, v = .fatal msg w2 k ∧ n = k + 1 := by
  cases v with
  | ok w j => simp [VisitResult.bump] at h
  | fatal msg0 w j =>
      simp only [VisitResult.bump, VisitResult.fatal.injEq] at h
      exact ⟨j, by rw [h.1, h.2.1], by omega⟩
  | stuck w j => simp [VisitResult.bump] at h

/-- Inversion of `bump` at an exhausted-oracle result. -/
theorem bump_stuck {v : VisitResult} {w2 : Response} {n : Nat}
    (h : v.bump = .stuck w2 n) : ∃ k, v = .stuck w2 k ∧ n = k + 1 := by
  cases v with
  | ok w j => simp [VisitResult.bump] at h
  | fatal msg w j => simp [VisitResult.bump] at h
  | stuck w j =>
      simp only [VisitResult.bump, VisitResult.stuck.injEq] at h
      exact ⟨j, by rw [h.1], by omega⟩

/-- Claim C2 (witness): the budget behaviour evaluated against a
concrete always-redirecting three-hop script for budgets 2 and 0. -/
theorem c2_redirect_budget_witness :
    budgetMsg 2 = "Maximum number of redirects (2) followed"
    ∧ budgetMsg 0 = "Maximum number of redirects (0) followed"
    ∧ (∃ w, visit (fixReq 2) newResponse [fixHop301, fixHop301, fixHop301] =
        .fatal (budgetMsg 2) w 3)
    ∧ (∃ w, visit (fixReq 0) newResponse [fixHop301, fixHop301, fixHop301] =
        .fatal (budgetMsg 0) w 1) :=
  c2_redirect_budget [fixHop301, fixHop301, fixHop301] (fixReq 2) (fixReq 0)
    (by decide) (by decide) rfl rfl rfl rfl

/-- Claim C9 (counterexample): at the fatal budget termination of a
concrete trace with `maxRedirects = 0` against a redirecting server, the
counter reads 1 although zero redirect hops were actually followed (only
the initial attempt ran, so the additional hops number `hops - 1 = 0`):
the counter is incremented before the budget check, so at the fatal
point it does not equal the number of redirect hops actually followed. -/
theorem c9_counter_claim_refuted :
    (visit (fixReq 0) newResponse [fixHop301]).state.redirectsFollowed = 1
    ∧ (visit (fixReq 0) newResponse [fixHop301]).hops - 1 = 0
    ∧ (1 : Nat) ≠ 0 := by
  refine ⟨by decide, by decide, by decide⟩

/-- Claim C9 (amended): across every trace the redirect counter is never
decremented and is incremented exactly once per redirect the tracer
commits to follow: writing `n` for the hop attempts a run consumed, at a
normal termination and at every fatal termination other than the budget
panic the final counter equals the initial counter plus `n - 1` (the
number of redirect hops actually followed), while at the budget panic it
equals the initial counter plus `n` — one more than the hops actually
followed, because the final increment's redirect is counted but never
performed (at an exhausted oracle it likewise equals initial plus `n`,
every consumed hop having been a followed redirect). -/
theorem c9_counter_invariant (oracle : List HopOutcome) : ∀ (r : Request) (w : Response),
    (∀ w2 n, visit r w oracle = .ok w2 n →
        w.redirectsFollowed ≤ w2.redirectsFollowed
        ∧ w2.redirectsFollowed + 1 = w.redirectsFollowed + n)
    ∧ (∀ msg w2 n, visit r w oracle = .fatal msg w2 n →
        w.redirectsFollowed ≤ w2.redirectsFollowed
        ∧ (msg = budgetMsg r.MaxRedirects →
            w2.redirectsFollowed = w.redirectsFollowed + n)
        ∧ (msg ≠ budgetMsg r.MaxRedirects →
            w2.redirectsFollowed + 1 = w.redirectsFollowed + n))
    ∧ (∀ w2 n, visit r w oracle = .stuck w2 n →
        w2.redirectsFollowed = w.redirectsFollowed + n) := by
  induction oracle with
  | nil =>
      intro r w
      refine ⟨?_, ?_, ?_⟩
      · intro w2 n h; simp [visit] at h
      · intro msg w2 n h; simp [visit] at h
      · intro w2 n h
        simp only [visit, VisitResult.stuck.injEq] at h
        obtain ⟨rfl, rfl⟩ := h
        omega
  | cons hop rest ih =>
      intro r w
      cases hop with
      | cookFail msg =>
          refine ⟨?_, ?_, ?_⟩
          · intro w2 n h; simp [visit] at h
          · intro msg2 w2 n h
            simp only [visit, VisitResult.fatal.injEq] at h
            obtain ⟨rfl, rfl, rfl⟩ := h
            refine ⟨Nat.le.refl, ?_, fun _ => rfl⟩
            intro heq
            exact absurd heq (ne_budgetMsg_of_head 'U' rfl (by decide))
          · intro w2 n h; simp [visit] at h
      | http2Fail msg =>
          refine ⟨?_, ?_, ?_⟩
          · intro w2 n h; simp [visit] at h
          · intro msg2 w2 n h
            simp only [visit, VisitResult.fatal.injEq] at h
            obtain ⟨rfl, rfl, rfl⟩ := h
            refine ⟨Nat.le.refl, ?_, fun _ => rfl⟩
            intro heq
            exact absurd heq (ne_budgetMsg_of_head 'F' rfl (by decide))
          · intro w2 n h; simp [visit] at h
      | connectFail addr msg =>
          refine ⟨?_, ?_, ?_⟩
          · intro w2 n h; simp [visit] at h
          · intro msg2 w2 n h
            simp only [visit, VisitResult.fatal.injEq] at h
            obtain ⟨rfl, rfl, rfl⟩ := h
            refine ⟨Nat.le.refl, ?_, fun _ => rfl⟩
            intro heq
            exact absurd heq (ne_budgetMsg_of_head 'U' rfl (by decide))
          · intro w2 n h; simp [visit] at h
      | doFail oc msg =>
          cases oc with
          | none =>
              refine ⟨?_, ?_, ?_⟩
              · intro w2 n h; simp [visit] at h
              · intro msg2 w2 n h
                simp only [visit, VisitResult.fatal.injEq] at h
                obtain ⟨rfl, rfl, rfl⟩ := h
                refine ⟨Nat.le.refl, ?_, fun _ => rfl⟩
                intro heq
                exact absurd heq (ne_budgetMsg_of_head 'F' rfl (by decide))
              · intro w2 n h; simp [visit] at h
          | some addr =>
              refine ⟨?_, ?_, ?_⟩
              · intro w2 n h; simp [visit] at h
              · intro msg2 w2 n h
                simp only [visit, VisitResult.fatal.injEq] at h
                obtain ⟨rfl, rfl, rfl⟩ := h
                refine ⟨Nat.le.refl, ?_, fun _ => rfl⟩
                intro heq
                exact absurd heq (ne_budgetMsg_of_head 'F' rfl (by decide))
              · intro w2 n h; simp [visit] at h
      | success addr m resp =>
          cases hB : r.FollowRedirects && isRedirect resp with
          | false =>
              have hstep := visit_step_terminal r w addr m resp rest hB
              refine ⟨?_, ?_, ?_⟩
              · intro w2 n h
                rw [hstep] at h
                simp only [VisitResult.ok.injEq] at h
                obtain ⟨rfl, rfl⟩ := h
                exact ⟨Nat.le.refl, rfl⟩
              · intro msg2 w2 n h
                rw [hstep] at h
                simp at h
              · intro w2 n h
                rw [hstep] at h
                simp at h
          | true =>
              rw [Bool.and_eq_true] at hB
              obtain ⟨hf, hr⟩ := hB
              cases hl : resp.location with
              | absent =>
                  have hstep := visit_step_noLocation r w addr m resp rest hf hr hl
                  refine ⟨?_, ?_, ?_⟩
                  · intro w2 n h
                    rw [hstep] at h
                    simp only [VisitResult.ok.injEq] at h
                    obtain ⟨rfl, rfl⟩ := h
                    exact ⟨Nat.le.refl, rfl⟩
                  · intro msg2 w2 n h
                    rw [hstep] at h
                    simp at h
                  · intro w2 n h
                    rw [hstep] at h
                    simp at h
              | invalid emsg =>
                  have hstep := visit_step_locErr r w addr m resp rest emsg hf hr hl
                  refine ⟨?_, ?_, ?_⟩
                  · intro w2 n h
                    rw [hstep] at h
                    simp at h
                  · intro msg2 w2 n h
                    rw [hstep] at h
                    simp only [VisitResult.fatal.injEq] at h
                    obtain ⟨rfl, rfl, rfl⟩ := h
                    refine ⟨Nat.le.refl, ?_, fun _ => rfl⟩
                    intro heq
                    exact absurd heq (ne_budgetMsg_of_head 'U' rfl (by decide))
                  · intro w2 n h
                    rw [hstep] at h
                    simp at h
              | ok u =>
                  by_cases hbud : r.MaxRedirects < w.redirectsFollowed + 1
                  · have hstep := visit_step_over r w addr m resp rest u hf hr hl hbud
                    refine ⟨?_, ?_, ?_⟩
                    · intro w2 n h
                      rw [hstep] at h
                      simp at h
                    · intro msg2 w2 n h
                      rw [hstep] at h
                      simp only [VisitResult.fatal.injEq] at h
                      obtain ⟨rfl, rfl, rfl⟩ := h
                      refine ⟨Nat.le_succ _, fun _ => rfl, ?_⟩
                      intro hne
                      exact absurd rfl hne
                    · intro w2 n h
                      rw [hstep] at h
                      simp at h
                  · have hin : w.redirectsFollowed + 1 ≤ r.MaxRedirects := by omega
                    have hstep := visit_step_follow r w addr m resp rest u hf hr hl hin
                    have IH := ih { r with URL := u } (followState w addr m resp)
                    have hwrf : (followState w addr m resp).redirectsFollowed
                        = w.redirectsFollowed + 1 := rfl
                    refine ⟨?_, ?_, ?_⟩
                    · intro w2 n h
                      rw [hstep] at h
                      obtain ⟨k, hk, rfl⟩ := bump_ok h
                      obtain ⟨hle, heq⟩ := IH.1 w2 k hk
                      rw [hwrf] at hle heq
                      omega
                    · intro msg2 w2 n h
                      rw [hstep] at h
                      obtain ⟨k, hk, rfl⟩ := bump_fatal h
                      obtain ⟨hle, hbudc, hnonc⟩ := IH.2.1 msg2 w2 k hk
                      rw [hwrf] at hle hbudc hnonc
                      refine ⟨by omega, ?_, ?_⟩
                      · intro heq
                        have := hbudc heq
                        omega
                      · intro hne
                        have := hnonc hne
                        omega
                    · intro w2 n h
                      rw [hstep] at h
                      obtain ⟨k, hk, rfl⟩ := bump_stuck h
                      have := IH.2.2 w2 k hk
                      rw [hwrf] at this
                      omega

/-- Claim C9 (witness): the amended relation applied at a concrete
budget-panic run — one hop attempt, counter incremented from 0 to 1. -/
theorem c9_counter_invariant_witness :
    (overState newResponse "1.2.3.4:80" fixMarks fixResp301).redirectsFollowed
      = newResponse.redirectsFollowed + 1 :=
  (((c9_counter_invariant [fixHop301] (fixReq 0) newResponse).2.1
      (budgetMsg 0) (overState newResponse "1.2.3.4:80" fixMarks fixResp301) 1
      (by decide)).2.1) rfl

/-- Bumping the hop count leaves the carried `Response` untouched. -/
theorem bump_state (v : VisitResult) : v.bump.state = v.state := by
  cases v <;> rfl

/-- Whatever a trace does, the starting log is an initial segment of the
final log: `visit` only ever appends report entries. -/
theorem visit_log_extends (oracle : List HopOutcome) : ∀ (r : Request) (w : Response),
    w.Log <+: (visit r w oracle).state.Log := by
  induction oracle with
  | nil => intro r w; exact List.prefix_refl _
  | cons hop rest ih =>
      intro r w
      cases hop with
      | cookFail msg => exact List.prefix_refl _
      | http2Fail msg => exact List.prefix_refl _
      | connectFail addr msg => exact List.prefix_refl _
      | doFail oc msg =>
          cases oc with
          | none => exact List.prefix_refl _
          | some addr => exact List.prefix_append _ _
      | success addr m resp =>
          cases hB : r.FollowRedirects && isRedirect resp with
          | false =>
              rw [visit_step_terminal r w addr m resp rest hB]
              exact List.prefix_append _ _
          | true =>
              rw [Bool.and_eq_true] at hB
              obtain ⟨hf, hr⟩ := hB
              cases hl : resp.location with
              | absent =>
                  rw [visit_step_noLocation r w addr m resp rest hf hr hl]
                  exact List.prefix_append _ _
              | invalid emsg =>
                  rw [visit_step_locErr r w addr m resp rest emsg hf hr hl]
                  exact List.prefix_append _ _
              | ok u =>
                  by_cases hbud : r.MaxRedirects < w.redirectsFollowed + 1
                  · rw [visit_step_over r w addr m resp rest u hf hr hl hbud]
                    exact List.prefix_append _ _
                  · rw [visit_step_follow r w addr m resp rest u hf hr hl (by omega)]
                    rw [bump_state]
                    refine List.IsPrefix.trans ?_
                      (ih { r with URL := u } (followState w addr m resp))
                    show w.Log <+: w.Log ++ hopEntries addr m resp ++ ["\n"]
                    rw [List.append_assoc]
                    exact List.prefix_append _ _

/-- Claim C10: a fatal termination does not roll the `Response` back —
every report line present when an attempt began is still in the log, in
insertion order, when the caller intercepts the fatal error (the log
only ever grows along the chain, so the partial trace accumulated before
the fatal point survives). -/
theorem c10_partial_trace_preserved (oracle : List HopOutcome) (r : Request)
    (w : Response) :
    ∀ msg w2 n, visit r w oracle = .fatal msg w2 n → w.Log <+: w2.Log := by
  intro msg w2 n h
  have hext := visit_log_extends oracle r w
  rw [h] at hext
  exact hext

/-- Claim C10 (witness): a concrete read-failure after connecting keeps
the pre-existing log entry and the connected line. -/
theorem c10_partial_trace_witness :
    ["seed"] <+: ["seed", "Connected to 1.2.3.4:80\n"] :=
  c10_partial_trace_preserved [.doFail (some "1.2.3.4:80") "EOF"] (fixReq 2)
    { Log := ["seed"], redirectsFollowed := 0 } (doFailMsg "EOF")
    { Log := ["seed", "Connected to 1.2.3.4:80\n"], redirectsFollowed := 0 } 1
    (by decide)

/-- Truncating division agrees with flooring division on a non-negative
duration. -/
theorem msVal_eq_fdiv {d : Int} (hd : 0 ≤ d) : msVal d = d.fdiv 1000000 :=
  (Int.fdiv_eq_tdiv hd (by decide)).symm

/-- Truncating division agrees with Euclidean division on a non-negative
duration (the form `omega` understands). -/
theorem msVal_eq_ediv {d : Int} (hd : 0 ≤ d) : msVal d = d / 1000000 :=
  Int.tdiv_eq_ediv hd (by decide)

/-- Claim C4: for a completed hop (instants captured in order), the five
phase lines and the total line render, with suffix "ms", the
whole-millisecond floor of exactly these differences of the captured
post-backfill instants: DNS lookup = dnsDone − dnsStart, TCP connection
= connectDone − dnsDone, TLS handshake = gotConnection − connectDone,
Server processing = firstByte − gotConnection, Content transfer =
bodyRead − firstByte, Total = bodyRead − dnsStart. -/
theorem c4_phase_durations (m : Marks)
    (h01 : effT0 m ≤ effT1 m) (h12 : effT1 m ≤ m.connectDone)
    (h23 : m.connectDone ≤ m.gotConn) (h34 : m.gotConn ≤ m.firstByte)
    (h45 : m.firstByte ≤ m.bodyRead) :
    phaseLines m =
      ["DNS lookup: " ++ toString ((effT1 m - effT0 m).fdiv 1000000) ++ "ms",
       "TCP connection: " ++ toString ((m.connectDone - effT1 m).fdiv 1000000) ++ "ms",
       "TLS handshake: " ++ toString ((m.gotConn - m.connectDone).fdiv 1000000) ++ "ms",
       "Server processing: " ++ toString ((m.firstByte - m.gotConn).fdiv 1000000) ++ "ms",
       "Content transfer: " ++ toString ((m.bodyRead - m.firstByte).fdiv 1000000) ++ "ms"]
    ∧ totalLine m =
        "\nTotal: " ++ toString ((m.bodyRead - effT0 m).fdiv 1000000) ++ "ms" := by
  constructor
  · simp only [phaseLines, msRender]
    rw [msVal_eq_fdiv (by omega), msVal_eq_fdiv (by omega), msVal_eq_fdiv (by omega),
        msVal_eq_fdiv (by omega), msVal_eq_fdiv (by omega)]
    simp [String.append_assoc]
  · simp only [totalLine, msRender]
    rw [msVal_eq_fdiv (by omega)]
    simp [String.append_assoc]

/-- Claim C4 (witness): the floored renderings evaluated at concrete
instants. -/
theorem c4_phase_durations_witness :
    phaseLines fixMarks =
      ["DNS lookup: " ++ toString ((effT1 fixMarks - effT0 fixMarks).fdiv 1000000) ++ "ms",
       "TCP connection: "
         ++ toString ((fixMarks.connectDone - effT1 fixMarks).fdiv 1000000) ++ "ms",
       "TLS handshake: "
         ++ toString ((fixMarks.gotConn - fixMarks.connectDone).fdiv 1000000) ++ "ms",
       "Server processing: "
         ++ toString ((fixMarks.firstByte - fixMarks.gotConn).fdiv 1000000) ++ "ms",
       "Content transfer: "
         ++ toString ((fixMarks.bodyRead - fixMarks.firstByte).fdiv 1000000) ++ "ms"]
    ∧ totalLine fixMarks =
        "\nTotal: " ++ toString ((fixMarks.bodyRead - effT0 fixMarks).fdiv 1000000) ++ "ms" :=
  c4_phase_durations fixMarks (by decide) (by decide) (by decide) (by decide) (by decide)

/-- Claim C5: the rendered total-duration value is at least the sum of
the five rendered phase values and exceeds it by at most 4ms: the phase
intervals telescope exactly to the total interval while each line floors
its own duration independently. -/
theorem c5_total_vs_phase_sum (m : Marks)
    (h01 : effT0 m ≤ effT1 m) (h12 : effT1 m ≤ m.connectDone)
    (h23 : m.connectDone ≤ m.gotConn) (h34 : m.gotConn ≤ m.firstByte)
    (h45 : m.firstByte ≤ m.bodyRead) :
    msVal (effT1 m - effT0 m) + msVal (m.connectDone - effT1 m)
      + msVal (m.gotConn - m.connectDone) + msVal (m.firstByte - m.gotConn)
      + msVal (m.bodyRead - m.firstByte) ≤ msVal (m.bodyRead - effT0 m)
    ∧ msVal (m.bodyRead - effT0 m) ≤
        msVal (effT1 m - effT0 m) + msVal (m.connectDone - effT1 m)
        + msVal (m.gotConn - m.connectDone) + msVal (m.firstByte - m.gotConn)
        + msVal (m.bodyRead - m.firstByte) + 4 := by
  rw [msVal_eq_ediv (by omega), msVal_eq_ediv (by omega), msVal_eq_ediv (by omega),
      msVal_eq_ediv (by omega), msVal_eq_ediv (by omega), msVal_eq_ediv (by omega)]
  constructor <;> omega

/-- Claim C5 (witness): the two bounds evaluated at concrete instants. -/
theorem c5_total_vs_phase_sum_witness :
    msVal (effT1 fixMarks - effT0 fixMarks) + msVal (fixMarks.connectDone - effT1 fixMarks)
      + msVal (fixMarks.gotConn - fixMarks.connectDone)
      + msVal (fixMarks.firstByte - fixMarks.gotConn)
      + msVal (fixMarks.bodyRead - fixMarks.firstByte)
      ≤ msVal (fixMarks.bodyRead - effT0 fixMarks)
    ∧ msVal (fixMarks.bodyRead - effT0 fixMarks) ≤
        msVal (effT1 fixMarks - effT0 fixMarks)
        + msVal (fixMarks.connectDone - effT1 fixMarks)
        + msVal (fixMarks.gotConn - fixMarks.connectDone)
        + msVal (fixMarks.firstByte - fixMarks.gotConn)
        + msVal (fixMarks.bodyRead - fixMarks.firstByte) + 4 :=
  c5_total_vs_phase_sum fixMarks (by decide) (by decide) (by decide) (by decide) (by decide)

/-- Claim C6: when DNS is skipped (neither DNS hook fired, the target
being a literal IP), the unset marks are backfilled — `t1` takes the
connect-start instant and `t0` takes `t1`'s value — so the DNS lookup
line renders exactly 0ms and, the remaining instants being in capture
order, no rendered phase or total value is negative. -/
theorem c6_dns_skip_backfill (m : Marks)
    (hs : m.dnsStart = none) (hd : m.dnsDone = none)
    (h2 : m.connectStart ≤ m.connectDone) (h3 : m.connectDone ≤ m.gotConn)
    (h4 : m.gotConn ≤ m.firstByte) (h5 : m.firstByte ≤ m.bodyRead) :
    effT1 m = m.connectStart ∧ effT0 m = m.connectStart
    ∧ phaseLines m =
        ["DNS lookup: 0ms",
         "TCP connection: " ++ msRender (m.connectDone - m.connectStart),
         "TLS handshake: " ++ msRender (m.gotConn - m.connectDone),
         "Server processing: " ++ msRender (m.firstByte - m.gotConn),
         "Content transfer: " ++ msRender (m.bodyRead - m.firstByte)]
    ∧ 0 ≤ msVal (m.connectDone - m.connectStart)
    ∧ 0 ≤ msVal (m.gotConn - m.connectDone)
    ∧ 0 ≤ msVal (m.firstByte - m.gotConn)
    ∧ 0 ≤ msVal (m.bodyRead - m.firstByte)
    ∧ 0 ≤ msVal (m.bodyRead - effT0 m) := by
  have e1 : effT1 m = m.connectStart := by simp [effT1, hd]
  have e0 : effT0 m = m.connectStart := by simp [effT0, e1, hs]
  refine ⟨e1, e0, ?_, ?_, ?_, ?_, ?_, ?_⟩
  · simp only [phaseLines, e1, e0, Int.sub_self]
    rfl
  · exact Int.tdiv_nonneg (by omega) (by decide)
  · exact Int.tdiv_nonneg (by omega) (by decide)
  · exact Int.tdiv_nonneg (by omega) (by decide)
  · exact Int.tdiv_nonneg (by omega) (by decide)
  · exact Int.tdiv_nonneg (by omega) (by decide)

/-- Claim C6 (witness): the backfill evaluated at concrete IP-literal
instants. -/
theorem c6_dns_skip_backfill_witness :
    effT1 fixMarksNoDns = fixMarksNoDns.connectStart
    ∧ effT0 fixMarksNoDns = fixMarksNoDns.connectStart
    ∧ phaseLines fixMarksNoDns =
        ["DNS lookup: 0ms",
         "TCP connection: "
           ++ msRender (fixMarksNoDns.connectDone - fixMarksNoDns.connectStart),
         "TLS handshake: "
           ++ msRender (fixMarksNoDns.gotConn - fixMarksNoDns.connectDone),
         "Server processing: "
           ++ msRender (fixMarksNoDns.firstByte - fixMarksNoDns.gotConn),
         "Content transfer: "
           ++ msRender (fixMarksNoDns.bodyRead - fixMarksNoDns.firstByte)]
    ∧ 0 ≤ msVal (fixMarksNoDns.connectDone - fixMarksNoDns.connectStart)
    ∧ 0 ≤ msVal (fixMarksNoDns.gotConn - fixMarksNoDns.connectDone)
    ∧ 0 ≤ msVal (fixMarksNoDns.firstByte - fixMarksNoDns.gotConn)
    ∧ 0 ≤ msVal (fixMarksNoDns.bodyRead - fixMarksNoDns.firstByte)
    ∧ 0 ≤ msVal (fixMarksNoDns.bodyRead - effT0 fixMarksNoDns) :=
  c6_dns_skip_backfill fixMarksNoDns rfl rfl (by decide) (by decide) (by decide) (by decide)

/-- A character with a false `contains` test is not a member. -/
theorem contains_false_not_mem {l : List Char} {a : Char}
    (h : l.contains a = false) : a ∉ l := by
  intro hm
  have ht : l.contains a = true := by
    simpa [List.contains] using List.elem_eq_true_of_mem hm
  rw [ht] at h
  exact Bool.noConfusion h

/-- `takeWhile` and `dropWhile` pass over a block that satisfies the
predicate throughout. -/
theorem takeWhile_dropWhile_append {p : Char → Bool} (l1 l2 : List Char)
    (h : ∀ c ∈ l1, p c = true) :
    ((l1 ++ l2).takeWhile p = l1 ++ l2.takeWhile p)
    ∧ ((l1 ++ l2).dropWhile p = l2.dropWhile p) := by
  induction l1 with
  | nil => simp
  | cons a l1 ih =>
      have ha : p a = true := h a (List.mem_cons_self a l1)
      have ih2 := ih (fun c hc => h c (List.mem_cons_of_mem a hc))
      simp [List.takeWhile_cons, List.dropWhile_cons, ha, ih2.1, ih2.2]

/-- Splitting `name:port` at its last colon when the port holds no
colon recovers the two parts. -/
theorem splitAtLastColon_append (name port : List Char)
    (hp : ∀ c ∈ port, c ≠ ':') :
    splitAtLastColon (name ++ ':' :: port) = some (name, port) := by
  have hall : ∀ c ∈ port.reverse, (c != ':') = true := by
    intro c hc
    rw [List.mem_reverse] at hc
    simpa using hp c hc
  have hrev : (name ++ ':' :: port).reverse = port.reverse ++ ':' :: name.reverse := by
    simp
  obtain ⟨ht, hd⟩ := takeWhile_dropWhile_append port.reverse (':' :: name.reverse) hall
  unfold splitAtLastColon
  rw [hrev, hd, ht]
  simp [List.dropWhile_cons, List.takeWhile_cons]

/-- The `SplitHostPort` success path: a colon-free, bracket-free name
with a colon-free, bracket-free port splits into the pair. -/
theorem splitHostPortL_append (name port : List Char)
    (hn1 : name.contains ':' = false) (hn2 : name.contains '[' = false)
    (hn3 : name.contains ']' = false)
    (hp1 : port.contains ':' = false) (hp2 : port.contains '[' = false)
    (hp3 : port.contains ']' = false) :
    splitHostPortL (name ++ ':' :: port) = some (name, port) := by
  have hpc : ∀ c ∈ port, c ≠ ':' := by
    intro c hc hceq
    subst hceq
    exact contains_false_not_mem hp1 hc
  unfold splitHostPortL
  rw [splitAtLastColon_append name port hpc]
  simp only [hp2, hp3, Bool.or_self, Bool.false_eq_true, if_false]
  split
  · rename_i h1 rest
    simp at hn2
  · rw [hn1, hn2, hn3]
    simp

/-- Claim C7 helper: `sniFromHost` strips a port suffix. -/
theorem sni_strips_port (name port : List Char)
    (hn1 : name.contains ':' = false) (hn2 : name.contains '[' = false)
    (hn3 : name.contains ']' = false)
    (hp1 : port.contains ':' = false) (hp2 : port.contains '[' = false)
    (hp3 : port.contains ']' = false) :
    sniFromHost ⟨name ++ ':' :: port⟩ = ⟨name⟩ := by
  unfold sniFromHost splitHostPort
  have hdata : (⟨name ++ ':' :: port⟩ : String).data = name ++ ':' :: port := rfl
  rw [hdata, splitHostPortL_append name port hn1 hn2 hn3 hp1 hp2 hp3]
  rfl

/-- Claim C7 helper: a Host value carrying no colon is used verbatim. -/
theorem sni_verbatim (s : String) (h : s.data.contains ':' = false) :
    sniFromHost s = s := by
  have hnil : s.data.reverse.dropWhile (fun c => c != ':') = [] := by
    rw [List.dropWhile_eq_nil_iff]
    intro c hc
    rw [List.mem_reverse] at hc
    have hne : c ≠ ':' := by
      intro hceq
      subst hceq
      exact contains_false_not_mem h hc
    simpa using hne
  unfold sniFromHost splitHostPort splitHostPortL splitAtLastColon
  rw [hnil]
  rfl

/-- Claim C7: for an https request the TLS server-name value is the
wire request's Host with the port suffix stripped when one is present,
and the Host value verbatim when it contains no colon; in particular
target `https://example.com:8443/` yields SNI `example.com` and target
`https://example.com/` yields `example.com`. -/
theorem c7_tls_server_name :
    tlsServerName (fixHttpsReq "example.com:8443") = "example.com"
    ∧ tlsServerName (fixHttpsReq "example.com") = "example.com"
    ∧ (∀ name port : List Char,
        name.contains ':' = false → name.contains '[' = false →
        name.contains ']' = false → port.contains ':' = false →
        port.contains '[' = false → port.contains ']' = false →
        sniFromHost ⟨name ++ ':' :: port⟩ = ⟨name⟩)
    ∧ (∀ s : String, s.data.contains ':' = false → sniFromHost s = s) :=
  ⟨by decide, by decide, sni_strips_port, sni_verbatim⟩

/-- Claim C7 (witness): the two universal parts applied at concrete
hosts. -/
theorem c7_tls_server_name_witness :
    sniFromHost ⟨['w', 'e', 'b'] ++ ':' :: ['8', '0']⟩ = ⟨['w', 'e', 'b']⟩
    ∧ sniFromHost "localhost" = "localhost" :=
  ⟨c7_tls_server_name.2.2.1 ['w', 'e', 'b'] ['8', '0'] (by decide) (by decide)
      (by decide) (by decide) (by decide) (by decide),
   c7_tls_server_name.2.2.2 "localhost" (by decide)⟩

/-- The last element of a cons is the tail's last element, defaulting to
the head. -/
theorem getLast?_cons_getD (v : String) (l : List String) :
    (v :: l).getLast? = some (l.getLast?.getD v) := by
  induction l generalizing v with
  | nil => rfl
  | cons u l ih =>
      rw [List.getLast?_cons_cons, ih u]
      simp

/-- One cooking step never touches the body or the method. -/
theorem cookStep_body_method (req : WireRequest) (h : String) :
    (cookStep req h).body = req.body ∧ (cookStep req h).method = req.method := by
  simp only [cookStep]
  split <;> exact ⟨rfl, rfl⟩

/-- Folding the headers never touches the body or the method. -/
theorem foldl_cookStep_body_method (hs : List String) : ∀ req : WireRequest,
    (hs.foldl cookStep req).body = req.body
    ∧ (hs.foldl cookStep req).method = req.method := by
  induction hs with
  | nil => intro req; exact ⟨rfl, rfl⟩
  | cons h hs ih =>
      intro req
      rw [List.foldl_cons]
      obtain ⟨hb, hm⟩ := ih (cookStep req h)
      obtain ⟨hb2, hm2⟩ := cookStep_body_method req h
      exact ⟨hb.trans hb2, hm.trans hm2⟩

/-- Folding the headers leaves as effective Host the last supplied
host-override value, or the starting Host when none is supplied. -/
theorem foldl_cookStep_host (hs : List String) : ∀ req : WireRequest,
    (hs.foldl cookStep req).host = (specHostOverride hs).getD req.host := by
  induction hs with
  | nil => intro req; rfl
  | cons h hs ih =>
      intro req
      rw [List.foldl_cons, ih (cookStep req h)]
      by_cases hh : strLower (headerKeyValue h).1 = "host"
      · simp only [cookStep, hh, if_pos, specHostOverride, List.filterMap_cons]
        rw [getLast?_cons_getD]
        have : specHostOverride hs
            = (hs.filterMap (fun h0 =>
                let kv := headerKeyValue h0
                if strLower kv.1 = "host" then some kv.2 else none)).getLast? := rfl
        rw [← this]
        simp
      · simp only [cookStep, hh, if_neg, specHostOverride, List.filterMap_cons,
          if_false, ite_false]

/-- `Header.Add` appends the value under the canonical key and changes
no other key's values. -/
theorem valuesFor_headerAdd (hm : List (String × List String)) (k v key : String) :
    valuesFor (headerAdd hm k v) key =
      if canonicalMIMEHeaderKey k = key then valuesFor hm key ++ [v]
      else valuesFor hm key := by
  induction hm with
  | nil =>
      by_cases hk : canonicalMIMEHeaderKey k = key
      · simp [headerAdd, valuesFor, hk]
      · simp [headerAdd, valuesFor, hk]
  | cons p hm ih =>
      obtain ⟨k0, vs⟩ := p
      by_cases h0 : k0 = canonicalMIMEHeaderKey k
      · by_cases hkey : k0 = key
        · simp [headerAdd, valuesFor, ← h0, hkey]
        · simp [headerAdd, valuesFor, ← h0, hkey]
      · by_cases hkey : k0 = key
        · have hck1 : canonicalMIMEHeaderKey k ≠ key := fun hc => h0 (hkey.trans hc.symm)
          have hck2 : key ≠ canonicalMIMEHeaderKey k := fun hc => hck1 hc.symm
          simp [headerAdd, valuesFor, h0, hkey, hck1, hck2, ih]
        · simp [headerAdd, valuesFor, h0, hkey, ih]

/-- Folding the headers accumulates, under every canonical key, exactly
the values of the non-host headers carrying that key, in the order
supplied. -/
theorem foldl_cookStep_header (hs : List String) : ∀ (req : WireRequest) (key : String),
    valuesFor (hs.foldl cookStep req).header key =
      valuesFor req.header key ++ specHeaderValues hs key := by
  induction hs with
  | nil => intro req key; simp [specHeaderValues]
  | cons h hs ih =>
      intro req key
      rw [List.foldl_cons, ih (cookStep req h) key]
      by_cases hh : strLower (headerKeyValue h).1 = "host"
      · simp [cookStep, hh, specHeaderValues, List.filterMap_cons]
      · by_cases hck : canonicalMIMEHeaderKey (headerKeyValue h).1 = key
        · simp [cookStep, hh, specHeaderValues, List.filterMap_cons,
            valuesFor_headerAdd, hck]
        · simp [cookStep, hh, specHeaderValues, List.filterMap_cons,
            valuesFor_headerAdd, hck]

/-- Claim C8: `cook` builds the wire request so that the body reader is
present and sourced from the body string (an empty string still yields a
present, empty body); every supplied header whose key case-insensitively
equals "host" sets the connection Host override instead of entering the
header map, the last such value winning (the URL's host otherwise); and
every other header is added, never replaced, in the order given, with
repeated keys keeping all their values in order. -/
theorem c8_cook_wire_request (r : Request) :
    (cook r).body = some r.PostBody
    ∧ (cook r).method = r.HTTPMethod
    ∧ (cook r).host = (specHostOverride r.HTTPHeaders).getD r.URL.Host
    ∧ ∀ key, valuesFor (cook r).header key = specHeaderValues r.HTTPHeaders key := by
  refine ⟨(foldl_cookStep_body_method r.HTTPHeaders _).1,
    (foldl_cookStep_body_method r.HTTPHeaders _).2,
    foldl_cookStep_host r.HTTPHeaders _, ?_⟩
  intro key
  have hmain := foldl_cookStep_header r.HTTPHeaders
    { method := r.HTTPMethod, host := r.URL.Host, header := [], body := some r.PostBody } key
  simpa [valuesFor] using hmain

end Urlstat
